import Mathlib

/-
  Verification development for the asset-forecast repository
  (src/predict.py): a single-asset Geometric Brownian Motion Monte Carlo
  forecast engine (forecast_engine) and a multi-asset portfolio
  Value-at-Risk engine (var_engine).

  Embedding conventions: numpy/pandas real arithmetic is embedded over the
  real numbers; the random draw matrices are explicit function inputs;
  Python exceptions are an Except error channel.  Division by zero follows
  the Lean convention x / 0 = 0; no claim exercises such inputs.
-/

open Matrix

/-- Python exceptions that src/predict.py can let escape to the caller. -/
inductive PyErr where
  | valueError (msg : String)
  | indexError
  | linAlgError (msg : String)
  deriving DecidableEq

/-- np.mean of a one-dimensional array: sum divided by length. -/
noncomputable def np_mean (l : List ℝ) : ℝ := l.sum / l.length

/-- The ddof = 1 sample variance: sum of squared deviations from the mean
    divided by (length - 1).  This is the square of np.std(-, ddof=1). -/
noncomputable def sampleVar (l : List ℝ) : ℝ :=
  (l.map fun x => (x - np_mean l) ^ 2).sum / ((l.length : ℝ) - 1)

/-- np.std with ddof = 1 (unbiased sample standard deviation). -/
noncomputable def np_std (l : List ℝ) : ℝ := Real.sqrt (sampleVar l)

/-- Log-return series: np.log(prices[1:] / prices[:-1]) (src/predict.py, line 24). -/
noncomputable def log_returns (prices : List ℝ) : List ℝ :=
  (prices.zip prices.tail).map fun p => Real.log (p.2 / p.1)

/-- Python a[-w:]: the last w elements of a list (shorter lists kept whole). -/
def lastWindow (w : ℕ) (l : List α) : List α := l.drop (l.length - w)

/-- The volatility window size fixed in both engines (lines 25 and 75). -/
def sigma_window : ℕ := 30

/-- sigma_daily (line 30): ddof = 1 standard deviation of the windowed
    log returns. -/
noncomputable def sigma_daily (prices : List ℝ) : ℝ :=
  np_std (lastWindow sigma_window (log_returns prices))

/-- mu_daily (line 31): full-history mean log return plus half the windowed
    variance. -/
noncomputable def mu_daily (prices : List ℝ) : ℝ :=
  np_mean (log_returns prices) + sigma_daily prices ^ 2 / 2

/-- drift (line 42): mu_daily minus half the windowed variance. -/
noncomputable def forecast_drift (prices : List ℝ) : ℝ :=
  mu_daily prices - sigma_daily prices ^ 2 / 2

/-- price_paths (lines 35-47): row 0 is the last observed price for every
    simulation column; row t + 1 multiplies row t elementwise by
    exp(drift + sigma * Z t), where Z t j is the standard normal draw used
    for simulation j in the loop iteration filling row t + 1. -/
noncomputable def price_paths (last_price drift sigma : ℝ) (Z : ℕ → ℕ → ℝ) :
    ℕ → ℕ → ℝ
  | 0, _ => last_price
  | t + 1, j => price_paths last_price drift sigma Z t j * Real.exp (drift + sigma * Z t j)

/-- expected_prices (line 49): np.mean(price_paths, axis=1), the arithmetic
    mean across the n_simulations columns of each row. -/
noncomputable def expected_prices (n_simulations : ℕ) (paths : ℕ → ℕ → ℝ) (t : ℕ) : ℝ :=
  (∑ j ∈ Finset.range n_simulations, paths t j) / n_simulations

/-- forecast_engine (lines 11-50).  The downloaded close prices stand as an
    explicit input (the yfinance download is an external collaborator); an
    empty download raises ValueError (lines 16-17) before any simulation. -/
noncomputable def forecast_engine (ticker : String) (prices : List ℝ)
    (days n_simulations : ℕ) (Z : ℕ → ℕ → ℝ) :
    Except PyErr ((ℕ → ℕ → ℝ) × (ℕ → ℝ)) :=
  if prices = [] then
    .error (.valueError ("Unable to fetch data for " ++ ticker))
  else
    let paths := price_paths (prices.getLastD 0) (forecast_drift prices) (sigma_daily prices) Z
    .ok (paths, expected_prices n_simulations paths)

/-- Linear interpolation at fractional index h into a list s, the default
    interpolation rule of np.percentile: with i the floor of h, interpolate
    between the entries at positions i and i + 1 (an out-of-range right
    endpoint falls back to the left entry). -/
noncomputable def interpSorted (s : List ℝ) (h : ℝ) : ℝ :=
  s.getD ⌊h⌋₊ 0 +
    (h - (⌊h⌋₊ : ℝ)) * (s.getD (⌊h⌋₊ + 1) (s.getD ⌊h⌋₊ 0) - s.getD ⌊h⌋₊ 0)

/-- np.percentile with the default linear interpolation: sort the data and
    interpolate at virtual index q / 100 * (length - 1). -/
noncomputable def np_percentile (l : List ℝ) (q : ℝ) : ℝ :=
  interpSorted (l.insertionSort (· ≤ ·)) (q / 100 * ((l.length : ℝ) - 1))

/-- Python int() on a real value: truncation toward zero. -/
noncomputable def pyInt (x : ℝ) : ℤ := if 0 ≤ x then ⌊x⌋ else ⌈x⌉

/-- The results dictionary key of line 125: str(int(conf * 100)) followed by
    a percent sign. -/
noncomputable def conf_key (conf : ℝ) : String := toString (pyInt (conf * 100)) ++ "%"

/-- var_value (lines 123-124): the VaR reported for confidence level conf,
    the negated (1 - conf) * 100 percentile of the simulated PnL vector. -/
noncomputable def var_value (pnl : List ℝ) (conf : ℝ) : ℝ :=
  -(np_percentile pnl ((1 - conf) * 100))

/-- Python dict assignment d[k] = v on a dictionary represented as an
    insertion-ordered association list: overwrite the entry in place if the
    key is present, otherwise append it. -/
def dictSet (m : List (String × ℝ)) (k : String) (v : ℝ) : List (String × ℝ) :=
  if m.any fun p => p.1 == k then
    m.map fun p => if p.1 == k then (k, v) else p
  else m ++ [(k, v)]

/-- The results dictionary built by the loop of lines 120-125. -/
noncomputable def var_results (pnl : List ℝ) (conf_levels : List ℝ) :
    List (String × ℝ) :=
  conf_levels.foldl (fun m conf => dictSet m (conf_key conf) (var_value pnl conf)) []

/-- dropna (line 68): keep exactly the rows in which every asset has a
    quote, extracting the quoted values. -/
def dropna {nA : ℕ} (table : List (Fin nA → Option ℝ)) : List (Fin nA → ℝ) :=
  table.filterMap fun row =>
    if h : ∀ i, (row i).isSome then some (fun i => (row i).get (h i)) else none

/-- Per-asset log-return rows (line 74): the pandas shift-divide-log with the
    first row dropped. -/
noncomputable def log_return_rows {nA : ℕ} (cleaned : List (Fin nA → ℝ)) :
    List (Fin nA → ℝ) :=
  (cleaned.zip cleaned.tail).map fun p i => Real.log (p.2 i / p.1 i)

/-- The column of one asset in a list of rows. -/
def column {nA : ℕ} (rows : List (Fin nA → ℝ)) (i : Fin nA) : List ℝ :=
  rows.map fun r => r i

/-- recent_variance (line 78): squared windowed ddof = 1 standard deviation,
    per asset. -/
noncomputable def recent_variance {nA : ℕ} (cleaned : List (Fin nA → ℝ))
    (i : Fin nA) : ℝ :=
  np_std (column (lastWindow sigma_window (log_return_rows cleaned)) i) ^ 2

/-- mu_vector (line 79): full-history mean log return plus half the windowed
    variance, per asset. -/
noncomputable def mu_vector {nA : ℕ} (cleaned : List (Fin nA → ℝ)) (i : Fin nA) : ℝ :=
  np_mean (column (log_return_rows cleaned) i) + recent_variance cleaned i / 2

/-- cov_matrix (line 80): the pandas windowed sample covariance matrix
    (ddof = 1) of the log returns. -/
noncomputable def cov_matrix {nA : ℕ} (cleaned : List (Fin nA → ℝ)) :
    Matrix (Fin nA) (Fin nA) ℝ :=
  Matrix.of fun i j =>
    let rows := lastWindow sigma_window (log_return_rows cleaned)
    let xs := column rows i
    let ys := column rows j
    ((xs.zip ys).map fun p => (p.1 - np_mean xs) * (p.2 - np_mean ys)).sum /
      ((rows.length : ℝ) - 1)

/-- Modelled from the numpy contract of np.linalg.cholesky: on a positive
    definite input the call returns a factor L with L * Lᵀ equal to the
    input.  The factor is obtained by choice from the Gram decomposition of
    a positive semidefinite matrix; no claim depends on the factor beyond
    that identity, and lower-triangularity is not modelled. -/
noncomputable def cholesky_factor {k : ℕ} (A : Matrix (Fin k) (Fin k) ℝ)
    (h : A.PosDef) : Matrix (Fin k) (Fin k) ℝ :=
  (Classical.choose (Matrix.posSemidef_iff_eq_transpose_mul_self.mp h.posSemidef))ᵀ

open scoped Classical in
/-- Modelled from the numpy contract: np.linalg.cholesky (line 86) returns a
    factor when the input is positive definite and raises LinAlgError with
    the message naming the violated positive-definiteness constraint
    otherwise. -/
noncomputable def np_cholesky {k : ℕ} (A : Matrix (Fin k) (Fin k) ℝ) :
    Option (Matrix (Fin k) (Fin k) ℝ) :=
  if h : A.PosDef then some (cholesky_factor A h) else none

/-- The returned factor really is a Gram factor of the input. -/
theorem np_cholesky_spec {k : ℕ} (A : Matrix (Fin k) (Fin k) ℝ)
    (L : Matrix (Fin k) (Fin k) ℝ) (h : np_cholesky A = some L) : L * Lᵀ = A := by
  unfold np_cholesky at h
  split at h
  · rename_i hpd
    obtain rfl : cholesky_factor A hpd = L := by injection h
    unfold cholesky_factor
    have hc := Classical.choose_spec
      (Matrix.posSemidef_iff_eq_transpose_mul_self.mp hpd.posSemidef)
    rw [transpose_transpose, ← conjTranspose_eq_transpose_of_trivial, ← hc]
  · exact absurd h (by simp)

/-- drift (line 99): mu_vector minus half the diagonal of the covariance
    matrix, per asset. -/
noncomputable def drift_vector {nA : ℕ} (cleaned : List (Fin nA → ℝ)) (i : Fin nA) : ℝ :=
  mu_vector cleaned i - cov_matrix cleaned i i / 2

/-- simulated_prices after t loop iterations (lines 97-110): asset i of
    simulation j starts at the latest observed price and is multiplied each
    iteration by exp(drift i + shock), where the shock is entry (j, i) of
    Z @ L.T, i.e. the sum over k of Z t j k * L i k. -/
noncomputable def simulated_prices {nA : ℕ} (latest drift : Fin nA → ℝ)
    (L : Matrix (Fin nA) (Fin nA) ℝ) (Z : ℕ → ℕ → Fin nA → ℝ) :
    ℕ → ℕ → Fin nA → ℝ
  | 0, _, i => latest i
  | t + 1, j, i =>
      simulated_prices latest drift L Z t j i *
        Real.exp (drift i + ∑ k, Z t j k * L i k)

/-- portfolio_paths (lines 90-113): row 0 is portfolio_value for every
    simulation; row t of simulation j is the share-weighted sum of the
    simulated asset prices after t iterations. -/
noncomputable def portfolio_paths {nA : ℕ} (portfolio_value : ℝ)
    (shares latest drift : Fin nA → ℝ) (L : Matrix (Fin nA) (Fin nA) ℝ)
    (Z : ℕ → ℕ → Fin nA → ℝ) (t j : ℕ) : ℝ :=
  if t = 0 then portfolio_value
  else ∑ i, simulated_prices latest drift L Z t j i * shares i

/-- The three values returned by var_engine (line 127). -/
structure VarResult where
  paths : ℕ → ℕ → ℝ
  pnl : List ℝ
  results : List (String × ℝ)

/-- var_engine (lines 58-127).  The downloaded close-price table stands as an
    explicit input, one optional quote per asset and day; Z t j i is the
    standard normal draw for simulation j and asset i in loop iteration
    t + 1.  An empty table after dropna makes the iloc[-1] of line 71 raise
    IndexError; a covariance matrix that is not positive definite makes
    line 86 raise LinAlgError; a zero simulation count makes np.percentile
    raise IndexError if any confidence level is requested. -/
noncomputable def var_engine {nA : ℕ} (table : List (Fin nA → Option ℝ))
    (weights : Fin nA → ℝ) (portfolio_value : ℝ) (days n_simulations : ℕ)
    (conf_levels : List ℝ) (Z : ℕ → ℕ → Fin nA → ℝ) : Except PyErr VarResult :=
  match (dropna table).getLast? with
  | none => .error .indexError
  | some latest_prices =>
    match np_cholesky (cov_matrix (dropna table)) with
    | none => .error (.linAlgError "Matrix is not positive definite")
    | some L =>
      let shares := fun i => portfolio_value * weights i / latest_prices i
      let paths := portfolio_paths portfolio_value shares latest_prices
        (drift_vector (dropna table)) L Z
      let pnl := (List.range n_simulations).map fun j => paths days j - portfolio_value
      if n_simulations = 0 ∧ conf_levels ≠ [] then .error .indexError
      else .ok ⟨paths, pnl, var_results pnl conf_levels⟩

/-! Basic facts about the embedded statistics. -/

lemma zip_self_sq_sum (xs : List ℝ) (m : ℝ) :
    ((xs.zip xs).map fun p => (p.1 - m) * (p.2 - m)).sum =
      (xs.map fun x => (x - m) ^ 2).sum := by
  induction xs with
  | nil => rfl
  | cons x t ih => simp only [List.zip_cons_cons, List.map_cons, List.sum_cons, ih]; ring_nf

lemma sampleVar_nonneg (l : List ℝ) : 0 ≤ sampleVar l := by
  unfold sampleVar
  rcases l with _ | ⟨x, xs⟩
  · simp
  · apply div_nonneg
    · apply List.sum_nonneg
      intro a ha
      simp only [List.mem_map] at ha
      obtain ⟨y, _, rfl⟩ := ha
      positivity
    · simp only [List.length_cons]
      push_cast
      linarith [Nat.cast_nonneg (α := ℝ) xs.length]

lemma np_std_sq (l : List ℝ) : np_std l ^ 2 = sampleVar l :=
  Real.sq_sqrt (sampleVar_nonneg l)

/-- The diagonal of the windowed covariance matrix is the windowed ddof = 1
    sample variance of the corresponding asset. -/
lemma cov_matrix_diag {nA : ℕ} (cleaned : List (Fin nA → ℝ)) (i : Fin nA) :
    cov_matrix cleaned i i =
      sampleVar (column (lastWindow sigma_window (log_return_rows cleaned)) i) := by
  unfold cov_matrix sampleVar
  simp only [Matrix.of_apply]
  rw [zip_self_sq_sum]
  simp [column]

/-- Column locality of the single-asset path matrix: the value of simulation
    j never reads the draws of any other simulation. -/
lemma price_paths_local (S0 drift sigma : ℝ) (Z W : ℕ → ℕ → ℝ) (j : ℕ)
    (hW : ∀ s, W s j = Z s j) :
    ∀ t, price_paths S0 drift sigma W t j = price_paths S0 drift sigma Z t j := by
  intro t
  induction t with
  | zero => rfl
  | succ k ih => simp only [price_paths, ih, hW]

/-- C1: for S0 > 0, daily drift mu, daily volatility sigma, horizon
    days >= 1, simulation count n >= 1 and standard normal draws Z, the
    forecast path matrix obeys
    price t j = price (t-1) j * exp(mu - sigma^2/2 + sigma * Z (t-1) j)
    for 1 <= t <= days and j < n, each step reading only the previous step,
    and simulation j depends only on column j of the draws. -/
theorem C1_path_recurrence (S0 mu sigma : ℝ) (Z : ℕ → ℕ → ℝ)
    (days n t j : ℕ) (W : ℕ → ℕ → ℝ)
    (hS : 0 < S0) (hdays : 1 ≤ days) (hn : 1 ≤ n)
    (ht1 : 1 ≤ t) (ht2 : t ≤ days) (hj : j < n)
    (hW : ∀ s, W s j = Z s j) :
    price_paths S0 (mu - sigma ^ 2 / 2) sigma Z t j =
      price_paths S0 (mu - sigma ^ 2 / 2) sigma Z (t - 1) j *
        Real.exp (mu - sigma ^ 2 / 2 + sigma * Z (t - 1) j) ∧
    price_paths S0 (mu - sigma ^ 2 / 2) sigma W t j =
      price_paths S0 (mu - sigma ^ 2 / 2) sigma Z t j := by
  constructor
  · rcases t with _ | k
    · omega
    · simp only [Nat.succ_sub_one, price_paths]
  · exact price_paths_local _ _ _ _ _ _ hW t

theorem C1_path_recurrence_witness :
    (0:ℝ) < 1 ∧ (1:ℕ) ≤ 1 ∧ (0:ℕ) < 1 ∧
    price_paths 1 ((0:ℝ) - 0 ^ 2 / 2) 0 (fun _ _ => 0) 1 0 =
      price_paths 1 ((0:ℝ) - 0 ^ 2 / 2) 0 (fun _ _ => 0) 0 0 *
        Real.exp (0 - 0 ^ 2 / 2 + 0 * 0) :=
  ⟨one_pos, le_refl 1, Nat.one_pos,
    (C1_path_recurrence 1 0 0 (fun _ _ => 0) 1 1 1 0 (fun _ _ => 0)
      one_pos (le_refl 1) (le_refl 1) (le_refl 1) (le_refl 1) Nat.one_pos
      (fun _ => rfl)).1⟩

/-- C2: the estimated drift is the full-history mean log return plus half
    the windowed variance; the deterministic simulation term subtracts the
    same half-variance, so the net drift applied per step is exactly the
    plain full-history mean log return, in the forecast engine and, per
    asset, in the VaR engine (where the subtracted diagonal covariance
    entry coincides with the windowed variance). -/
theorem C2_drift_cancellation :
    (∀ prices : List ℝ,
      mu_daily prices =
        np_mean (log_returns prices) +
          sampleVar (lastWindow sigma_window (log_returns prices)) / 2 ∧
      forecast_drift prices = np_mean (log_returns prices)) ∧
    (∀ (nA : ℕ) (cleaned : List (Fin nA → ℝ)) (i : Fin nA),
      drift_vector cleaned i = np_mean (column (log_return_rows cleaned) i)) := by
  refine ⟨fun prices => ⟨?_, ?_⟩, fun nA cleaned i => ?_⟩
  · unfold mu_daily sigma_daily
    rw [np_std_sq]
  · unfold forecast_drift mu_daily
    ring
  · unfold drift_vector mu_vector recent_variance
    rw [cov_matrix_diag, np_std_sq]
    ring

/-- C3: element 0 of the expected-price sequence is exactly the last
    observed price (for any draws, with at least one simulation), and row 0
    of the portfolio path matrix is exactly portfolio_value for every
    simulation. -/
theorem C3_day_zero (S0 drift sigma : ℝ) (Z : ℕ → ℕ → ℝ) (n : ℕ)
    (hn : 1 ≤ n) (pv : ℝ) {nA : ℕ} (shares latest driftv : Fin nA → ℝ)
    (L : Matrix (Fin nA) (Fin nA) ℝ) (Zv : ℕ → ℕ → Fin nA → ℝ) (j : ℕ) :
    expected_prices n (price_paths S0 drift sigma Z) 0 = S0 ∧
    portfolio_paths pv shares latest driftv L Zv 0 j = pv := by
  constructor
  · unfold expected_prices
    simp only [price_paths]
    rw [Finset.sum_const, Finset.card_range, nsmul_eq_mul]
    rw [mul_comm, mul_div_assoc,
      div_self (by exact_mod_cast Nat.one_le_iff_ne_zero.mp hn), mul_one]
  · simp [portfolio_paths]

theorem C3_day_zero_witness :
    (1:ℕ) ≤ 2 ∧
    expected_prices 2 (price_paths 5 0 0 (fun _ _ => 0)) 0 = 5 :=
  ⟨by omega,
    (@C3_day_zero 5 0 0 (fun _ _ => 0) 2 (by omega) 7 1
      (fun _ => 0) (fun _ => 0) (fun _ => 0) 0 (fun _ _ _ => 0) 0).1⟩

/-- C7: an empty downloaded price history makes forecast_engine raise the
    ValueError of lines 16-17 before any simulation, and a table in which
    some requested instrument has no quotes at all is emptied by dropna and
    makes var_engine raise IndexError at the iloc of line 71 before any
    simulation; both errors reach the caller unswallowed. -/
theorem C7_empty_history (ticker : String) (days n : ℕ) (Z1 : ℕ → ℕ → ℝ)
    {nA : ℕ} (table : List (Fin nA → Option ℝ)) (i0 : Fin nA)
    (hmiss : ∀ r ∈ table, r i0 = none)
    (weights : Fin nA → ℝ) (pv : ℝ) (days2 nsim : ℕ) (confs : List ℝ)
    (Z2 : ℕ → ℕ → Fin nA → ℝ) :
    forecast_engine ticker [] days n Z1 =
      .error (.valueError ("Unable to fetch data for " ++ ticker)) ∧
    var_engine table weights pv days2 nsim confs Z2 = .error .indexError := by
  constructor
  · simp [forecast_engine]
  · have hclean : dropna table = [] := by
      unfold dropna
      rw [List.filterMap_eq_nil_iff]
      intro row hr
      rw [dif_neg]
      intro hall
      have hsome := hall i0
      rw [hmiss row hr] at hsome
      simp at hsome
    simp [var_engine, hclean]

theorem C7_empty_history_witness :
    (∀ r ∈ ([fun _ => none] : List (Fin 1 → Option ℝ)), r 0 = none) ∧
    forecast_engine "AAPL" [] 7 10000 (fun _ _ => 0) =
      .error (.valueError ("Unable to fetch data for " ++ "AAPL")) :=
  ⟨by simp,
    (C7_empty_history "AAPL" 7 10000 (fun _ _ => 0)
      ([fun _ => none] : List (Fin 1 → Option ℝ)) 0 (by simp)
      (fun _ => 1) 1000000 7 10000 [0.95, 0.99] (fun _ _ _ => 0)).1⟩

/-- C10: the results dictionary is keyed by str(int(conf * 100)) followed by
    a percent sign, so two distinct requested confidence levels with the
    same truncated value collide: the later level overwrites the earlier
    and the mapping has fewer entries than the requested list. -/
theorem C10_key_collision (pnl : List ℝ) (c1 c2 : ℝ)
    (hkey : pyInt (c1 * 100) = pyInt (c2 * 100)) (hne : c1 ≠ c2) :
    conf_key c1 = toString (pyInt (c1 * 100)) ++ "%" ∧
    conf_key c1 = conf_key c2 ∧
    var_results pnl [c1, c2] = [(conf_key c1, var_value pnl c2)] ∧
    (var_results pnl [c1, c2]).length < ([c1, c2] : List ℝ).length := by
  have hck : conf_key c2 = conf_key c1 := by unfold conf_key; rw [hkey]
  refine ⟨rfl, hck.symm, ?_, ?_⟩
  · unfold var_results
    simp only [List.foldl_cons, List.foldl_nil]
    rw [show dictSet [] (conf_key c1) (var_value pnl c1) =
        [(conf_key c1, var_value pnl c1)] by simp [dictSet]]
    unfold dictSet
    rw [hck]
    simp
  · unfold var_results
    simp only [List.foldl_cons, List.foldl_nil]
    rw [show dictSet [] (conf_key c1) (var_value pnl c1) =
        [(conf_key c1, var_value pnl c1)] by simp [dictSet]]
    unfold dictSet
    rw [hck]
    simp

theorem C10_key_collision_witness :
    pyInt ((0.955:ℝ) * 100) = pyInt ((0.959:ℝ) * 100) ∧ (0.955:ℝ) ≠ 0.959 ∧
    var_results [1, 2] [0.955, 0.959] =
      [(conf_key 0.955, var_value [1, 2] 0.959)] := by
  have hkey : pyInt ((0.955:ℝ) * 100) = pyInt ((0.959:ℝ) * 100) := by
    unfold pyInt
    rw [if_pos (by norm_num), if_pos (by norm_num)]
    rw [show ((0.955:ℝ) * 100) = 95.5 by norm_num,
      show ((0.959:ℝ) * 100) = 95.9 by norm_num]
    rw [show ⌊(95.5:ℝ)⌋ = 95 by rw [Int.floor_eq_iff] <;> norm_num,
      show ⌊(95.9:ℝ)⌋ = 95 by rw [Int.floor_eq_iff] <;> norm_num]
  exact ⟨hkey, by norm_num,
    (C10_key_collision [1, 2] 0.955 0.959 hkey (by norm_num)).2.2.1⟩

/-! Monotonicity of the linear-interpolation percentile. -/

lemma sorted_getD_mono {s : List ℝ} (hs : s.Sorted (· ≤ ·)) {i j : ℕ}
    (hij : i ≤ j) (hj : j < s.length) : s.getD i 0 ≤ s.getD j 0 := by
  have hi : i < s.length := lt_of_le_of_lt hij hj
  rw [List.getD_eq_getElem s 0 hi, List.getD_eq_getElem s 0 hj]
  rcases eq_or_lt_of_le hij with rfl | hlt
  · exact le_refl _
  · exact List.pairwise_iff_get.mp hs ⟨i, hi⟩ ⟨j, hj⟩ hlt

lemma sorted_getD_succ {s : List ℝ} (hs : s.Sorted (· ≤ ·)) {i : ℕ}
    (hi : i < s.length) : s.getD i 0 ≤ s.getD (i + 1) (s.getD i 0) := by
  rcases lt_or_ge (i + 1) s.length with h | h
  · rw [List.getD_eq_getElem s (s.getD i 0) h, ← List.getD_eq_getElem s 0 h]
    exact sorted_getD_mono hs (Nat.le_succ i) h
  · rw [List.getD_eq_default s (s.getD i 0) h]

lemma interpSorted_ge_left {s : List ℝ} (hs : s.Sorted (· ≤ ·)) {h : ℝ}
    (h0 : 0 ≤ h) (hfl : ⌊h⌋₊ < s.length) :
    s.getD ⌊h⌋₊ 0 ≤ interpSorted s h := by
  unfold interpSorted
  have hfrac : (0:ℝ) ≤ h - (⌊h⌋₊ : ℝ) := sub_nonneg.mpr (Nat.floor_le h0)
  have hba := sorted_getD_succ hs hfl
  have hprod := mul_nonneg hfrac (sub_nonneg.mpr hba)
  linarith

lemma interpSorted_le_right {s : List ℝ} (hs : s.Sorted (· ≤ ·)) {h : ℝ}
    (hfl : ⌊h⌋₊ < s.length) :
    interpSorted s h ≤ s.getD (⌊h⌋₊ + 1) (s.getD ⌊h⌋₊ 0) := by
  unfold interpSorted
  have hfr : h - (⌊h⌋₊ : ℝ) ≤ 1 := by
    have hlf := Nat.lt_floor_add_one h
    push_cast at hlf
    linarith
  have hba := sorted_getD_succ hs hfl
  nlinarith [mul_nonneg (by linarith : (0:ℝ) ≤ 1 - (h - (⌊h⌋₊ : ℝ)))
    (sub_nonneg.mpr hba)]

lemma interpSorted_mono {s : List ℝ} (hs : s.Sorted (· ≤ ·)) (hne : s ≠ [])
    {g1 g2 : ℝ} (h0 : 0 ≤ g1) (h12 : g1 ≤ g2)
    (hub : g2 ≤ (s.length : ℝ) - 1) :
    interpSorted s g1 ≤ interpSorted s g2 := by
  have hi2 : ⌊g2⌋₊ < s.length := by
    have hle : (⌊g2⌋₊ : ℝ) ≤ (s.length : ℝ) - 1 :=
      le_trans (Nat.floor_le (le_trans h0 h12)) hub
    have hnat : (⌊g2⌋₊ : ℝ) + 1 ≤ (s.length : ℝ) := by linarith
    exact_mod_cast hnat
  have hi1 : ⌊g1⌋₊ ≤ ⌊g2⌋₊ := Nat.floor_mono h12
  rcases eq_or_lt_of_le hi1 with heq | hlt
  · have hi1lt : ⌊g1⌋₊ < s.length := heq ▸ hi2
    unfold interpSorted
    rw [← heq]
    have hba := sorted_getD_succ hs hi1lt
    have hmul := mul_le_mul_of_nonneg_right
      (sub_le_sub_right h12 ((⌊g1⌋₊ : ℝ))) (sub_nonneg.mpr hba)
    linarith
  · have hi1lt : ⌊g1⌋₊ < s.length := lt_trans hlt hi2
    have hsucc : ⌊g1⌋₊ + 1 < s.length := lt_of_le_of_lt hlt hi2
    have step1 := interpSorted_le_right hs hi1lt
    have step2 : s.getD (⌊g1⌋₊ + 1) (s.getD ⌊g1⌋₊ 0) ≤ s.getD ⌊g2⌋₊ 0 := by
      rw [List.getD_eq_getElem s (s.getD ⌊g1⌋₊ 0) hsucc,
        ← List.getD_eq_getElem s 0 hsucc]
      exact sorted_getD_mono hs hlt hi2
    have step3 := interpSorted_ge_left hs (le_trans h0 h12) hi2
    linarith

lemma np_percentile_mono (l : List ℝ) (q r : ℝ) (hne : l ≠ [])
    (h0 : 0 ≤ q) (hqr : q ≤ r) (h100 : r ≤ 100) :
    np_percentile l q ≤ np_percentile l r := by
  unfold np_percentile
  have hs := List.sorted_insertionSort (· ≤ ·) l
  have hlen : (List.insertionSort (· ≤ ·) l).length = l.length :=
    (List.perm_insertionSort (· ≤ ·) l).length_eq
  have hlen1 : 1 ≤ l.length := List.length_pos.mpr hne
  have hne2 : List.insertionSort (· ≤ ·) l ≠ [] := by
    intro hnil
    rw [hnil] at hlen
    simp at hlen
    omega
  have hpos : (0:ℝ) ≤ (l.length : ℝ) - 1 := by
    have hc : (1:ℝ) ≤ (l.length : ℝ) := by exact_mod_cast hlen1
    linarith
  apply interpSorted_mono hs hne2
  · exact mul_nonneg (div_nonneg h0 (by norm_num)) hpos
  · exact mul_le_mul_of_nonneg_right (by linarith : q / 100 ≤ r / 100) hpos
  · rw [hlen]
    calc r / 100 * ((l.length : ℝ) - 1) ≤ 1 * ((l.length : ℝ) - 1) := by
          exact mul_le_mul_of_nonneg_right
            ((div_le_one (by norm_num)).mpr h100) hpos
      _ = (l.length : ℝ) - 1 := one_mul _

/-- C5: for a fixed simulated PnL vector and any two confidence levels
    0 < c1 <= c2 < 1 requested in the same call, the reported VaR values
    satisfy VaR(c1) <= VaR(c2): the negated linear-interpolation percentile
    is monotone in the confidence level. -/
theorem C5_var_monotone (pnl : List ℝ) (c1 c2 : ℝ) (hne : pnl ≠ [])
    (hc1 : 0 < c1) (hc12 : c1 ≤ c2) (hc2 : c2 < 1) :
    var_value pnl c1 ≤ var_value pnl c2 := by
  unfold var_value
  have hmono := np_percentile_mono pnl ((1 - c2) * 100) ((1 - c1) * 100) hne
    (by nlinarith) (by nlinarith) (by nlinarith)
  linarith

theorem C5_var_monotone_witness :
    ([ (1:ℝ), 2 ] ≠ []) ∧ (0:ℝ) < 0.95 ∧ (0.95:ℝ) ≤ 0.99 ∧ (0.99:ℝ) < 1 ∧
    var_value [1, 2] 0.95 ≤ var_value [1, 2] 0.99 :=
  ⟨by simp, by norm_num, by norm_num, by norm_num,
    C5_var_monotone [1, 2] 0.95 0.99 (by simp)
      (by norm_num) (by norm_num) (by norm_num)⟩

/-! Lookup facts for the results dictionary. -/

lemma lookup_pair_cons_eq (k : String) (v : ℝ) (t : List (String × ℝ)) :
    ((k, v) :: t).lookup k = some v := by
  simp [List.lookup]

lemma lookup_pair_cons_ne (q k : String) (v : ℝ) (t : List (String × ℝ))
    (hqk : q ≠ k) : ((k, v) :: t).lookup q = t.lookup q := by
  simp [List.lookup, beq_false_of_ne hqk]

lemma dictSet_lookup_self (m : List (String × ℝ)) (k : String) (v : ℝ) :
    (dictSet m k v).lookup k = some v := by
  unfold dictSet
  split
  · rename_i hany
    induction m with
    | nil => simp at hany
    | cons p t ih =>
      obtain ⟨a, b⟩ := p
      simp only [List.any_cons, Bool.or_eq_true] at hany
      by_cases hak : a = k
      · subst hak
        simp only [List.map_cons, beq_self_eq_true, if_true]
        exact lookup_pair_cons_eq a v _
      · have hbeq : ((a, b).1 == k) = false := by simpa using hak
        simp only [List.map_cons, hbeq, Bool.false_eq_true, if_false]
        rw [lookup_pair_cons_ne k a b _ (Ne.symm hak)]
        apply ih
        rcases hany with hh | ht
        · exact absurd hh (by simp [hak])
        · exact ht
  · induction m with
    | nil => simp [List.lookup]
    | cons p t ih =>
      rename_i hany
      obtain ⟨a, b⟩ := p
      simp only [List.any_cons, Bool.or_eq_true, not_or] at hany
      have hak : ¬ a = k := by simpa using hany.1
      rw [List.cons_append, lookup_pair_cons_ne k a b _ (Ne.symm hak)]
      apply ih
      simpa using hany.2

lemma dictSet_lookup_other (m : List (String × ℝ)) (k q : String) (v : ℝ)
    (hqk : q ≠ k) : (dictSet m k v).lookup q = m.lookup q := by
  unfold dictSet
  split
  · rename_i hany
    clear hany
    induction m with
    | nil => simp
    | cons p t ih =>
      obtain ⟨a, b⟩ := p
      by_cases hak : a = k
      · subst hak
        simp only [List.map_cons, beq_self_eq_true, if_true]
        rw [lookup_pair_cons_ne q a v _ hqk, lookup_pair_cons_ne q a b _ hqk]
        exact ih
      · have hbeq : ((a, b).1 == k) = false := by simpa using hak
        simp only [List.map_cons, hbeq, Bool.false_eq_true, if_false]
        by_cases hqa : q = a
        · subst hqa
          rw [lookup_pair_cons_eq q b _, lookup_pair_cons_eq q b _]
        · rw [lookup_pair_cons_ne q a b _ hqa, lookup_pair_cons_ne q a b _ hqa]
          exact ih
  · rename_i hany
    clear hany
    induction m with
    | nil => simp [List.lookup, beq_false_of_ne hqk]
    | cons p t ih =>
      obtain ⟨a, b⟩ := p
      by_cases hqa : q = a
      · subst hqa
        rw [List.cons_append, lookup_pair_cons_eq q b _, lookup_pair_cons_eq q b _]
      · rw [List.cons_append, lookup_pair_cons_ne q a b _ hqa,
          lookup_pair_cons_ne q a b _ hqa]
        exact ih

lemma var_results_fold_preserve (pnl : List ℝ) (cs : List ℝ) (q : String) :
    ∀ m : List (String × ℝ), (∀ c ∈ cs, conf_key c ≠ q) →
    (cs.foldl (fun acc conf => dictSet acc (conf_key conf) (var_value pnl conf)) m).lookup q
      = m.lookup q := by
  induction cs with
  | nil => intro m _; rfl
  | cons c t ih =>
    intro m hq
    simp only [List.foldl_cons]
    rw [ih _ fun d hd => hq d (List.mem_cons_of_mem _ hd)]
    exact dictSet_lookup_other m (conf_key c) q _
      fun h => hq c (List.mem_cons_self _ _) h.symm

lemma var_results_fold_lookup (pnl : List ℝ) (cs : List ℝ) :
    ∀ (m : List (String × ℝ)) (c : ℝ), c ∈ cs → (cs.map conf_key).Nodup →
    (cs.foldl (fun acc conf => dictSet acc (conf_key conf) (var_value pnl conf)) m).lookup
      (conf_key c) = some (var_value pnl c) := by
  induction cs with
  | nil => intro m c hc _; simp at hc
  | cons d t ih =>
    intro m c hc hnd
    simp only [List.map_cons, List.nodup_cons] at hnd
    rcases List.mem_cons.mp hc with rfl | hct
    · simp only [List.foldl_cons]
      rw [var_results_fold_preserve pnl t _ _
        fun e he heq => hnd.1 (by rw [← heq]; exact List.mem_map_of_mem conf_key he)]
      exact dictSet_lookup_self m (conf_key c) _
    · simp only [List.foldl_cons]
      exact ih _ c hct hnd.2

/-- The success path of var_engine, spelled out: when the cleaned table is
    nonempty, the covariance factorisation succeeds and the percentile stage
    has input, the engine returns the path matrix, the PnL vector and the
    results dictionary built from them. -/
lemma var_engine_ok {nA : ℕ} (table : List (Fin nA → Option ℝ))
    (weights : Fin nA → ℝ) (pv : ℝ) (days n_simulations : ℕ)
    (conf_levels : List ℝ) (Z : ℕ → ℕ → Fin nA → ℝ)
    (latest : Fin nA → ℝ) (L : Matrix (Fin nA) (Fin nA) ℝ)
    (hl : (dropna table).getLast? = some latest)
    (hc : np_cholesky (cov_matrix (dropna table)) = some L)
    (hg : ¬(n_simulations = 0 ∧ conf_levels ≠ [])) :
    var_engine table weights pv days n_simulations conf_levels Z =
      .ok ⟨portfolio_paths pv (fun i => pv * weights i / latest i) latest
            (drift_vector (dropna table)) L Z,
          (List.range n_simulations).map fun j =>
            portfolio_paths pv (fun i => pv * weights i / latest i) latest
              (drift_vector (dropna table)) L Z days j - pv,
          var_results ((List.range n_simulations).map fun j =>
            portfolio_paths pv (fun i => pv * weights i / latest i) latest
              (drift_vector (dropna table)) L Z days j - pv) conf_levels⟩ := by
  unfold var_engine
  rw [hl, hc]
  dsimp only
  rw [if_neg hg]

/-- C4: on any successful run the returned PnL vector is exactly the final
    day row of the portfolio path matrix minus the initial portfolio value,
    per simulation, and (when the requested levels have distinct keys) the
    results dictionary maps the key of each requested confidence level c to
    the negated (1 - c) percentile of that PnL vector. -/
theorem C4_pnl_and_var {nA : ℕ} (table : List (Fin nA → Option ℝ))
    (weights : Fin nA → ℝ) (pv : ℝ) (days n_simulations : ℕ)
    (conf_levels : List ℝ) (Z : ℕ → ℕ → Fin nA → ℝ) (out : VarResult)
    (hok : var_engine table weights pv days n_simulations conf_levels Z = .ok out)
    (hnd : (conf_levels.map conf_key).Nodup) (c : ℝ) (hc : c ∈ conf_levels) :
    out.pnl = ((List.range n_simulations).map fun j => out.paths days j - pv) ∧
    out.results.lookup (conf_key c) = some (var_value out.pnl c) := by
  unfold var_engine at hok
  rcases hgl : (dropna table).getLast? with _ | latest
  · rw [hgl] at hok
    cases hok
  · rw [hgl] at hok
    rcases hch : np_cholesky (cov_matrix (dropna table)) with _ | L
    · rw [hch] at hok
      cases hok
    · rw [hch] at hok
      dsimp only at hok
      by_cases hg : n_simulations = 0 ∧ conf_levels ≠ []
      · rw [if_pos hg] at hok
        cases hok
      · rw [if_neg hg] at hok
        injection hok with hout
        subst hout
        refine ⟨rfl, ?_⟩
        exact var_results_fold_lookup _ conf_levels [] c hc hnd

/-! A concrete one-asset fixture: three closing prices 1, e and e cubed, so
    the log returns are 1 and 2, the windowed variance is 1/2 and the
    simulation drift is 3/2. -/

noncomputable def exampleTable : List (Fin 1 → Option ℝ) :=
  [fun _ => some 1, fun _ => some (Real.exp 1), fun _ => some (Real.exp 3)]

noncomputable def exampleLatest : Fin 1 → ℝ := fun _ => Real.exp 3

noncomputable def exampleWeights : Fin 1 → ℝ := fun _ => 1

noncomputable def exampleZ : ℕ → ℕ → Fin 1 → ℝ := fun _ _ _ => 0

lemma exampleTable_cleaned :
    dropna exampleTable =
      [fun _ => 1, fun _ => Real.exp 1, fun _ => Real.exp 3] := by
  unfold exampleTable dropna
  simp

lemma exampleTable_last : (dropna exampleTable).getLast? = some exampleLatest := by
  rw [exampleTable_cleaned]
  rfl

lemma exampleTable_rows :
    log_return_rows (dropna exampleTable) = [fun _ => 1, fun _ => 2] := by
  rw [exampleTable_cleaned]
  unfold log_return_rows
  simp only [List.tail_cons, List.zip_cons_cons, List.zip_nil_right,
    List.map_cons, List.map_nil]
  congr 1
  · funext i
    rw [div_one, Real.log_exp]
  · congr 1
    funext i
    rw [← Real.exp_sub, Real.log_exp]
    norm_num

lemma exampleTable_colw :
    column (lastWindow sigma_window (log_return_rows (dropna exampleTable))) 0
      = [1, 2] := by
  rw [exampleTable_rows]
  rfl

lemma exampleTable_colf :
    column (log_return_rows (dropna exampleTable)) 0 = [1, 2] := by
  rw [exampleTable_rows]
  rfl

lemma exampleTable_cov : cov_matrix (dropna exampleTable) 0 0 = 1 / 2 := by
  rw [cov_matrix_diag, exampleTable_colw]
  unfold sampleVar np_mean
  norm_num

/-- A one-by-one matrix with a positive entry is positive definite. -/
lemma posdef_one_dim (A : Matrix (Fin 1) (Fin 1) ℝ) (h : 0 < A 0 0) : A.PosDef := by
  constructor
  · ext i j
    fin_cases i
    fin_cases j
    simp [Matrix.conjTranspose_apply]
  · intro x hx
    have hx0 : x 0 ≠ 0 := by
      intro h0
      apply hx
      funext i
      fin_cases i
      exact h0
    have hdot : dotProduct (star x) (A *ᵥ x) = A 0 0 * (x 0 * x 0) := by
      simp [dotProduct, Matrix.mulVec, Fin.sum_univ_one]
      ring
    rw [hdot]
    exact mul_pos h (mul_self_pos.mpr hx0)

lemma exampleTable_posdef : (cov_matrix (dropna exampleTable)).PosDef :=
  posdef_one_dim _ (by rw [exampleTable_cov]; norm_num)

noncomputable def exampleL : Matrix (Fin 1) (Fin 1) ℝ :=
  cholesky_factor (cov_matrix (dropna exampleTable)) exampleTable_posdef

lemma exampleTable_chol :
    np_cholesky (cov_matrix (dropna exampleTable)) = some exampleL := by
  unfold np_cholesky exampleL
  rw [dif_pos exampleTable_posdef]

lemma exampleTable_drift : drift_vector (dropna exampleTable) 0 = 3 / 2 := by
  unfold drift_vector mu_vector recent_variance
  rw [cov_matrix_diag, np_std_sq, exampleTable_colw, exampleTable_colf]
  unfold sampleVar np_mean
  norm_num

noncomputable def exampleShares : Fin 1 → ℝ :=
  fun i => 100 * exampleWeights i / exampleLatest i

noncomputable def examplePaths : ℕ → ℕ → ℝ :=
  portfolio_paths 100 exampleShares exampleLatest
    (drift_vector (dropna exampleTable)) exampleL exampleZ

noncomputable def examplePnl : List ℝ :=
  (List.range 2).map fun j => examplePaths 1 j - 100

lemma simulated_prices_zero {nA : ℕ} (latest dr : Fin nA → ℝ)
    (L : Matrix (Fin nA) (Fin nA) ℝ) (Z : ℕ → ℕ → Fin nA → ℝ) (j : ℕ) (i : Fin nA) :
    simulated_prices latest dr L Z 0 j i = latest i := rfl

lemma simulated_prices_succ {nA : ℕ} (latest dr : Fin nA → ℝ)
    (L : Matrix (Fin nA) (Fin nA) ℝ) (Z : ℕ → ℕ → Fin nA → ℝ) (t j : ℕ) (i : Fin nA) :
    simulated_prices latest dr L Z (t + 1) j i =
      simulated_prices latest dr L Z t j i *
        Real.exp (dr i + ∑ k, Z t j k * L i k) := rfl

lemma example_sim (j : ℕ) :
    simulated_prices exampleLatest (drift_vector (dropna exampleTable))
      exampleL exampleZ 1 j 0 = Real.exp 3 * Real.exp (3 / 2) := by
  show simulated_prices exampleLatest (drift_vector (dropna exampleTable))
      exampleL exampleZ (0 + 1) j 0 = Real.exp 3 * Real.exp (3 / 2)
  rw [simulated_prices_succ, simulated_prices_zero]
  unfold exampleZ
  simp only [zero_mul, Finset.sum_const_zero, add_zero]
  rw [exampleTable_drift]
  rfl

lemma example_paths_one (j : ℕ) : examplePaths 1 j = 100 * Real.exp (3 / 2) := by
  unfold examplePaths portfolio_paths
  rw [if_neg one_ne_zero, Fin.sum_univ_one, example_sim j]
  unfold exampleShares exampleWeights exampleLatest
  rw [mul_one]
  have h3 : Real.exp 3 ≠ 0 := Real.exp_ne_zero 3
  field_simp
  ring

lemma example_pnl :
    examplePnl = [100 * Real.exp (3 / 2) - 100, 100 * Real.exp (3 / 2) - 100] := by
  unfold examplePnl
  rw [show List.range 2 = [0, 1] from rfl]
  simp [example_paths_one]

noncomputable def exampleOut : VarResult :=
  ⟨examplePaths, examplePnl, var_results examplePnl [0.95]⟩

lemma example_run :
    var_engine exampleTable exampleWeights 100 1 2 [0.95] exampleZ = .ok exampleOut :=
  var_engine_ok exampleTable exampleWeights 100 1 2 [0.95] exampleZ
    exampleLatest exampleL exampleTable_last exampleTable_chol (by simp)

/-- The 5th percentile (or any interpolated percentile) of a two-element
    constant sample is that constant, so the reported VaR at level 0.95 of a
    constant PnL vector is its negation. -/
lemma var_value_pair (v : ℝ) : var_value [v, v] 0.95 = -v := by
  unfold var_value np_percentile
  rw [show List.insertionSort (· ≤ ·) [v, v] = [v, v] by
    simp [List.insertionSort, List.orderedInsert]]
  rw [show (1 - (0.95:ℝ)) * 100 / 100 * ((([v, v] : List ℝ).length : ℝ) - 1)
      = 0.05 by norm_num]
  unfold interpSorted
  rw [show ⌊(0.05:ℝ)⌋₊ = 0 from Nat.floor_eq_zero.mpr (by norm_num)]
  simp

/-- C6 counterexample: a concrete run of the VaR engine in which every
    simulated outcome is a gain returns a strictly negative VaR value, so
    the returned mapping is not non-negative for every input and draw
    realisation.  Here the single asset rises deterministically (all draws
    zero) by the factor exp(3/2). -/
theorem C6_counterexample :
    (var_engine exampleTable exampleWeights 100 1 2 [0.95] exampleZ).map
        VarResult.results
      = .ok [(conf_key 0.95, 100 - 100 * Real.exp (3 / 2))] ∧
    100 - 100 * Real.exp (3 / 2) < 0 := by
  constructor
  · rw [example_run]
    show Except.ok exampleOut.results = _
    unfold exampleOut
    show Except.ok (var_results examplePnl [0.95]) = _
    rw [example_pnl]
    unfold var_results
    simp only [List.foldl_cons, List.foldl_nil]
    rw [show dictSet [] (conf_key 0.95)
        (var_value [100 * Real.exp (3 / 2) - 100, 100 * Real.exp (3 / 2) - 100] 0.95)
        = [(conf_key 0.95,
            var_value [100 * Real.exp (3 / 2) - 100, 100 * Real.exp (3 / 2) - 100] 0.95)]
      by simp [dictSet]]
    rw [var_value_pair, neg_sub]
  · have h1 : (1:ℝ) < Real.exp (3 / 2) := Real.one_lt_exp_iff.mpr (by norm_num)
    nlinarith

/-- C6 amended: a reported VaR value is the negated (1 - c) percentile of
    the simulated PnL vector, so it is non-negative exactly when that
    percentile of the simulated PnL is non-positive; nothing clamps it at
    zero, and it is negative whenever the percentile is a gain. -/
theorem C6_amended (pnl : List ℝ) (c : ℝ) :
    0 ≤ var_value pnl c ↔ np_percentile pnl ((1 - c) * 100) ≤ 0 := by
  unfold var_value
  exact neg_nonneg

/-- C8: whenever the windowed covariance matrix of the cleaned data is not
    positive definite, the Cholesky call of line 86 fails and var_engine
    surfaces the LinAlgError naming the violated positive-definiteness
    constraint, returning no other output. -/
theorem C8_correlation_error {nA : ℕ} (table : List (Fin nA → Option ℝ))
    (weights : Fin nA → ℝ) (pv : ℝ) (days n_simulations : ℕ)
    (conf_levels : List ℝ) (Z : ℕ → ℕ → Fin nA → ℝ) (latest : Fin nA → ℝ)
    (hl : (dropna table).getLast? = some latest)
    (hnpd : ¬ (cov_matrix (dropna table)).PosDef) :
    var_engine table weights pv days n_simulations conf_levels Z =
      .error (.linAlgError "Matrix is not positive definite") := by
  unfold var_engine
  rw [hl, show np_cholesky (cov_matrix (dropna table)) = none from by
    unfold np_cholesky; rw [dif_neg hnpd]]

/-! A degenerate fixture: three identical closing prices, so every log
    return is zero and the windowed covariance matrix is singular. -/

noncomputable def constTable : List (Fin 1 → Option ℝ) :=
  [fun _ => some 1, fun _ => some 1, fun _ => some 1]

lemma constTable_cleaned :
    dropna constTable = [fun _ => 1, fun _ => 1, fun _ => 1] := by
  unfold constTable dropna
  simp

lemma constTable_rows :
    log_return_rows (dropna constTable) = [fun _ => 0, fun _ => 0] := by
  rw [constTable_cleaned]
  unfold log_return_rows
  simp only [List.tail_cons, List.zip_cons_cons, List.zip_nil_right,
    List.map_cons, List.map_nil]
  congr 1
  · funext i
    rw [div_one, Real.log_one]
  · congr 1
    funext i
    rw [div_one, Real.log_one]

lemma constTable_cov : cov_matrix (dropna constTable) 0 0 = 0 := by
  rw [cov_matrix_diag]
  rw [show column (lastWindow sigma_window (log_return_rows (dropna constTable))) 0
      = [0, 0] from by rw [constTable_rows]; rfl]
  unfold sampleVar np_mean
  norm_num

lemma constTable_not_posdef : ¬ (cov_matrix (dropna constTable)).PosDef := by
  rintro ⟨_, hpos⟩
  have hx : (fun _ => (1:ℝ) : Fin 1 → ℝ) ≠ 0 := by
    intro h
    have h0 := congrFun h 0
    norm_num at h0
  have hlt := hpos (fun _ => 1) hx
  rw [show dotProduct (star fun _ => (1:ℝ))
        (cov_matrix (dropna constTable) *ᵥ fun _ => 1)
      = cov_matrix (dropna constTable) 0 0 from by
    simp [dotProduct, Matrix.mulVec, Fin.sum_univ_one]] at hlt
  rw [constTable_cov] at hlt
  exact lt_irrefl 0 hlt

theorem C8_correlation_error_witness :
    ((dropna constTable).getLast? = some fun _ => 1) ∧
    ¬ (cov_matrix (dropna constTable)).PosDef ∧
    var_engine constTable (fun _ => 1) 1000000 7 10000 [0.95, 0.99] (fun _ _ _ => 0) =
      .error (.linAlgError "Matrix is not positive definite") :=
  ⟨by rw [constTable_cleaned]; rfl, constTable_not_posdef,
    C8_correlation_error constTable (fun _ => 1) 1000000 7 10000 [0.95, 0.99]
      (fun _ _ _ => 0) (fun _ => 1) (by rw [constTable_cleaned]; rfl)
      constTable_not_posdef⟩

/-- C9 counterexample: a call with a weights vector summing to 0.4 (not 1)
    and a horizon of 0 days (non-positive) raises nothing at all: the
    engine returns a normal result, there is no InvalidParameters
    validation anywhere in the code. -/
theorem C9_counterexample :
    (var_engine exampleTable (fun _ => 0.4) 100 0 2 [0.95] exampleZ).isOk = true := by
  rw [var_engine_ok exampleTable (fun _ => 0.4) 100 0 2 [0.95] exampleZ
    exampleLatest exampleL exampleTable_last exampleTable_chol (by simp)]
  rfl

/-- C9 amended: the VaR engine performs no parameter validation.  Whenever
    the data-dependent stages succeed (nonempty cleaned history, positive
    definite windowed covariance, and the percentile stage has input), the
    engine returns a normal result for every weights vector regardless of
    its sum and for every horizon including zero; no InvalidParameters
    error exists in its error repertoire. -/
theorem C9_no_validation {nA : ℕ} (table : List (Fin nA → Option ℝ))
    (weights : Fin nA → ℝ) (pv : ℝ) (days n_simulations : ℕ)
    (conf_levels : List ℝ) (Z : ℕ → ℕ → Fin nA → ℝ)
    (latest : Fin nA → ℝ) (L : Matrix (Fin nA) (Fin nA) ℝ)
    (hl : (dropna table).getLast? = some latest)
    (hc : np_cholesky (cov_matrix (dropna table)) = some L)
    (hg : ¬(n_simulations = 0 ∧ conf_levels ≠ [])) :
    (var_engine table weights pv days n_simulations conf_levels Z).isOk = true := by
  rw [var_engine_ok table weights pv days n_simulations conf_levels Z latest L hl hc hg]
  rfl

theorem C9_no_validation_witness :
    ((dropna exampleTable).getLast? = some exampleLatest) ∧
    (var_engine exampleTable (fun _ => 0.7) 100 0 2 [0.95] exampleZ).isOk = true :=
  ⟨exampleTable_last,
    C9_no_validation exampleTable (fun _ => 0.7) 100 0 2 [0.95] exampleZ
      exampleLatest exampleL exampleTable_last exampleTable_chol (by simp)⟩

theorem C4_pnl_and_var_witness :
    (([0.95] : List ℝ).map conf_key).Nodup ∧ (0.95 : ℝ) ∈ ([0.95] : List ℝ) ∧
    exampleOut.results.lookup (conf_key 0.95) = some (var_value exampleOut.pnl 0.95) :=
  ⟨by simp, by simp,
    (C4_pnl_and_var exampleTable exampleWeights 100 1 2 [0.95] exampleZ exampleOut
      example_run (by simp) 0.95 (by simp)).2⟩
